import Mathlib

/-!
Verification development for the `ui-monitor` repository.

The program under study is `tools/compare_latest_pair.py`: for each monitored
page it selects the two most recent screenshots, compares them with a windowed
structural-similarity score (skimage `structural_similarity` with its default
parameters on `uint8` grayscale images) and a perceptual-hash distance
(`imagehash.phash`), classifies the pair as changed via two thresholds, and
localizes the change into one of three horizontal bands.

Images are modelled as total functions `ℕ → ℕ → ℚ` together with explicit
dimensions; machine floats are modelled by exact rational arithmetic; the
`uint8` cast is modelled by floor followed by reduction mod 256.  External
library functions whose numeric content matters to the spec's claims
(the SSIM computation, `scipy.ndimage.uniform_filter`, min-max normalization)
are embedded concretely from their documented default algorithms; external
functions whose values no claim depends on (`cv2.imread` decoding,
`imagehash.phash` fingerprints, the JET colour LUT) are parameters, so every
theorem about them holds for an arbitrary deterministic implementation.
-/

/-- Index reflection of `scipy.ndimage.uniform_filter`'s default `reflect`
boundary mode (`d c b a | a b c d | d c b a`): position `-1` maps to `0`,
`-2` to `1`, `n` to `n-1`, `n+1` to `n-2`.  A single reflection suffices for
every access the 7×7 window makes on images of height/width ≥ 7, which is
exactly the regime skimage accepts (it rejects images smaller than the
window). -/
def reflectIdx (n : ℕ) (i : ℤ) : ℕ :=
  if i < 0 then (-i - 1).toNat
  else if (n : ℤ) ≤ i then (2 * n - 1 - i).toNat
  else i.toNat

/-- Sum of the 7×7 window of `g` centred at `(i, j)`, with `reflect`
boundary handling, on an `h × w` grid.  `uniform_filter(g, size=7)` at
`(i, j)` is this sum divided by 49. -/
def winSum (h w : ℕ) (g : ℕ → ℕ → ℚ) (i j : ℕ) : ℚ :=
  ∑ a ∈ Finset.range 7, ∑ b ∈ Finset.range 7,
    g (reflectIdx h ((i : ℤ) + a - 3)) (reflectIdx w ((j : ℤ) + b - 3))

/-- Mean of the 7×7 window: `scipy.ndimage.uniform_filter` with `size=7`,
`mode='reflect'`, evaluated at one output position. -/
def uniformFilter (h w : ℕ) (g : ℕ → ℕ → ℚ) (i j : ℕ) : ℚ :=
  winSum h w g i j / 49

/-- skimage default `K1 = 0.01`. -/
def ssimK1 : ℚ := 1 / 100

/-- skimage default `K2 = 0.03`. -/
def ssimK2 : ℚ := 3 / 100

/-- Data range of `uint8` images: `255`. -/
def dataRange : ℚ := 255

/-- skimage `C1 = (K1 * data_range) ** 2`. -/
def ssimC1 : ℚ := (ssimK1 * dataRange) ^ 2

/-- skimage `C2 = (K2 * data_range) ** 2`. -/
def ssimC2 : ℚ := (ssimK2 * dataRange) ^ 2

/-- skimage `cov_norm = NP / (NP - 1)` (sample covariance) with
`NP = win_size ** 2 = 49`. -/
def covNorm : ℚ := 49 / 48

/-- skimage `A1 = 2 * ux * uy + C1`. -/
def ssimA1 (ux uy : ℚ) : ℚ := 2 * ux * uy + ssimC1

/-- skimage `B1 = ux ** 2 + uy ** 2 + C1`. -/
def ssimB1 (ux uy : ℚ) : ℚ := ux * ux + uy * uy + ssimC1

/-- skimage `A2 = 2 * vxy + C2` with `vxy = cov_norm * (uxy - ux * uy)`. -/
def ssimA2 (ux uy uxy : ℚ) : ℚ := 2 * (covNorm * (uxy - ux * uy)) + ssimC2

/-- skimage `B2 = vx + vy + C2` with `vx = cov_norm * (uxx - ux * ux)` and
`vy = cov_norm * (uyy - uy * uy)`. -/
def ssimB2 (ux uxx uy uyy : ℚ) : ℚ :=
  covNorm * (uxx - ux * ux) + covNorm * (uyy - uy * uy) + ssimC2

/-- One entry of the full SSIM map `S = (A1 * A2) / (B1 * B2)`, given the
five local filter outputs. -/
def ssimCore (ux uy uxx uyy uxy : ℚ) : ℚ :=
  ssimA1 ux uy * ssimA2 ux uy uxy / (ssimB1 ux uy * ssimB2 ux uxx uy uyy)

/-- The full SSIM map of skimage `structural_similarity(X, Y, full=True)`
at position `(i, j)`: the five uniform filters of `X`, `Y`, `X*X`, `Y*Y`,
`X*Y` combined pointwise. -/
def ssimMap (h w : ℕ) (x y : ℕ → ℕ → ℚ) (i j : ℕ) : ℚ :=
  ssimCore (uniformFilter h w x i j) (uniformFilter h w y i j)
    (uniformFilter h w (fun p q => x p q * x p q) i j)
    (uniformFilter h w (fun p q => y p q * y p q) i j)
    (uniformFilter h w (fun p q => x p q * y p q) i j)

/-- The scalar SSIM score: mean of the SSIM map over the crop that removes
`pad = (win_size - 1) // 2 = 3` rows/columns from each border
(`crop(S, pad).mean()` in skimage). -/
def ssimScore (h w : ℕ) (x y : ℕ → ℕ → ℚ) : ℚ :=
  (∑ i ∈ Finset.range (h - 6), ∑ j ∈ Finset.range (w - 6),
      ssimMap h w x y (i + 3) (j + 3)) / (((h - 6) * (w - 6) : ℕ) : ℚ)

/-- Coordinates accessed by window cell `t` of the window centred at
`(i, j)`. -/
def winIdx (h w i j : ℕ) (t : ℕ × ℕ) : ℕ × ℕ :=
  (reflectIdx h ((i : ℤ) + t.1 - 3), reflectIdx w ((j : ℤ) + t.2 - 3))

/-- The window of `g` centred at `(i, j)` as a family indexed by
`Finset.range 7 ×ˢ Finset.range 7`. -/
def winFam (h w : ℕ) (g : ℕ → ℕ → ℚ) (i j : ℕ) (t : ℕ × ℕ) : ℚ :=
  g (winIdx h w i j t).1 (winIdx h w i j t).2

/-- The window index set. -/
def winSet : Finset (ℕ × ℕ) := Finset.range 7 ×ˢ Finset.range 7

lemma winSet_card : winSet.card = 49 := by
  simp [winSet, Finset.card_product]

lemma winSum_eq_sum_winFam (h w : ℕ) (g : ℕ → ℕ → ℚ) (i j : ℕ) :
    winSum h w g i j = ∑ t ∈ winSet, winFam h w g i j t := by
  rw [winSet, Finset.sum_product]
  rfl

lemma winFam_mul (h w : ℕ) (x y : ℕ → ℕ → ℚ) (i j : ℕ) (t : ℕ × ℕ) :
    winFam h w (fun p q => x p q * y p q) i j t =
      winFam h w x i j t * winFam h w y i j t := rfl

lemma reflectIdx_lt (n : ℕ) (i : ℤ) (h1 : -(n : ℤ) ≤ i) (h2 : i < 2 * n) :
    reflectIdx n i < n := by
  unfold reflectIdx
  split_ifs <;> omega

lemma reflectIdx_of_lt (n : ℕ) (i : ℤ) (h1 : 0 ≤ i) (h2 : i < n) :
    (reflectIdx n i : ℤ) = i := by
  unfold reflectIdx
  split_ifs <;> omega

lemma winIdx_mem (h w i j : ℕ) (hh : 7 ≤ h) (hw : 7 ≤ w) (hi : i < h)
    (hj : j < w) (t : ℕ × ℕ) (ht : t ∈ winSet) :
    (winIdx h w i j t).1 < h ∧ (winIdx h w i j t).2 < w := by
  have ht1 : t.1 < 7 := by
    have := Finset.mem_product.mp ht
    simpa using this.1
  have ht2 : t.2 < 7 := by
    have := Finset.mem_product.mp ht
    simpa using this.2
  constructor
  · exact reflectIdx_lt h _ (by omega) (by omega)
  · exact reflectIdx_lt w _ (by omega) (by omega)

/-- Grids whose in-range pixels are non-negative (every `uint8` image
satisfies this). -/
def PixOk (h w : ℕ) (x : ℕ → ℕ → ℚ) : Prop :=
  ∀ p, p < h → ∀ q, q < w → 0 ≤ x p q

lemma winFam_nonneg (h w i j : ℕ) (x : ℕ → ℕ → ℚ) (hh : 7 ≤ h) (hw : 7 ≤ w)
    (hi : i < h) (hj : j < w) (hx : PixOk h w x) (t : ℕ × ℕ)
    (ht : t ∈ winSet) : 0 ≤ winFam h w x i j t := by
  obtain ⟨m1, m2⟩ := winIdx_mem h w i j hh hw hi hj t ht
  exact hx _ m1 _ m2

/-- Scaled-deviation identity for the second moment: with `n = s.card`,
`∑ (n·f t − ∑f)² = n · (n·∑f² − (∑f)²)`. -/
lemma sum_ndev_sq {ι : Type} (s : Finset ι) (f : ι → ℚ) :
    ∑ t ∈ s, ((s.card : ℚ) * f t - ∑ u ∈ s, f u) ^ 2 =
      (s.card : ℚ) *
        ((s.card : ℚ) * (∑ t ∈ s, f t * f t) - (∑ t ∈ s, f t) ^ 2) := by
  have hexp : ∀ t ∈ s,
      ((s.card : ℚ) * f t - ∑ u ∈ s, f u) ^ 2 =
        ((s.card : ℚ) ^ 2 * (f t * f t) -
          (2 * (s.card : ℚ) * (∑ u ∈ s, f u)) * f t) +
          (∑ u ∈ s, f u) ^ 2 := by
    intro t _
    ring
  rw [Finset.sum_congr rfl hexp, Finset.sum_add_distrib,
    Finset.sum_sub_distrib, ← Finset.mul_sum, ← Finset.mul_sum,
    Finset.sum_const, nsmul_eq_mul]
  ring

/-- Scaled-deviation identity for the mixed moment. -/
lemma sum_ndev_mul {ι : Type} (s : Finset ι) (f g : ι → ℚ) :
    ∑ t ∈ s, (((s.card : ℚ) * f t - ∑ u ∈ s, f u) *
        ((s.card : ℚ) * g t - ∑ u ∈ s, g u)) =
      (s.card : ℚ) *
        ((s.card : ℚ) * (∑ t ∈ s, f t * g t) -
          (∑ t ∈ s, f t) * (∑ t ∈ s, g t)) := by
  have hexp : ∀ t ∈ s,
      (((s.card : ℚ) * f t - ∑ u ∈ s, f u) *
          ((s.card : ℚ) * g t - ∑ u ∈ s, g u)) =
        (((s.card : ℚ) ^ 2 * (f t * g t) -
            ((s.card : ℚ) * (∑ u ∈ s, g u)) * f t) -
          ((s.card : ℚ) * (∑ u ∈ s, f u)) * g t) +
          (∑ u ∈ s, f u) * (∑ u ∈ s, g u) := by
    intro t _
    ring
  rw [Finset.sum_congr rfl hexp, Finset.sum_add_distrib,
    Finset.sum_sub_distrib, Finset.sum_sub_distrib, ← Finset.mul_sum,
    ← Finset.mul_sum, ← Finset.mul_sum, Finset.sum_const, nsmul_eq_mul]
  ring

/-- The scaled variance numerator `n·∑f² − (∑f)²` is non-negative on a
49-element index set. -/
lemma Evar_nonneg {ι : Type} (s : Finset ι) (hcard : s.card = 49)
    (f : ι → ℚ) :
    0 ≤ 49 * (∑ t ∈ s, f t * f t) - (∑ t ∈ s, f t) ^ 2 := by
  have hnn : (0 : ℚ) ≤ ∑ t ∈ s, ((s.card : ℚ) * f t - ∑ u ∈ s, f u) ^ 2 :=
    Finset.sum_nonneg fun t _ => sq_nonneg _
  rw [sum_ndev_sq, hcard] at hnn
  push_cast at hnn
  nlinarith

/-- Cauchy–Schwarz / AM-GM for the scaled deviations, difference form. -/
lemma Ecov_le {ι : Type} (s : Finset ι) (hcard : s.card = 49) (f g : ι → ℚ) :
    2 * (49 * (∑ t ∈ s, f t * g t) - (∑ t ∈ s, f t) * (∑ t ∈ s, g t)) ≤
      (49 * (∑ t ∈ s, f t * f t) - (∑ t ∈ s, f t) ^ 2) +
        (49 * (∑ t ∈ s, g t * g t) - (∑ t ∈ s, g t) ^ 2) := by
  have hnn : (0 : ℚ) ≤ ∑ t ∈ s,
      (((s.card : ℚ) * f t - ∑ u ∈ s, f u) -
        ((s.card : ℚ) * g t - ∑ u ∈ s, g u)) ^ 2 :=
    Finset.sum_nonneg fun t _ => sq_nonneg _
  have hexp : ∀ t ∈ s,
      (((s.card : ℚ) * f t - ∑ u ∈ s, f u) -
          ((s.card : ℚ) * g t - ∑ u ∈ s, g u)) ^ 2 =
        (((s.card : ℚ) * f t - ∑ u ∈ s, f u) ^ 2 +
            ((s.card : ℚ) * g t - ∑ u ∈ s, g u) ^ 2) -
          2 * (((s.card : ℚ) * f t - ∑ u ∈ s, f u) *
            ((s.card : ℚ) * g t - ∑ u ∈ s, g u)) := by
    intro t _
    ring
  rw [Finset.sum_congr rfl hexp, Finset.sum_sub_distrib,
    Finset.sum_add_distrib, ← Finset.mul_sum, sum_ndev_sq, sum_ndev_sq,
    sum_ndev_mul, hcard] at hnn
  push_cast at hnn
  linarith

/-- Cauchy–Schwarz / AM-GM for the scaled deviations, sum form. -/
lemma Ecov_ge {ι : Type} (s : Finset ι) (hcard : s.card = 49) (f g : ι → ℚ) :
    -((49 * (∑ t ∈ s, f t * f t) - (∑ t ∈ s, f t) ^ 2) +
        (49 * (∑ t ∈ s, g t * g t) - (∑ t ∈ s, g t) ^ 2)) ≤
      2 * (49 * (∑ t ∈ s, f t * g t) - (∑ t ∈ s, f t) * (∑ t ∈ s, g t)) := by
  have hnn : (0 : ℚ) ≤ ∑ t ∈ s,
      (((s.card : ℚ) * f t - ∑ u ∈ s, f u) +
        ((s.card : ℚ) * g t - ∑ u ∈ s, g u)) ^ 2 :=
    Finset.sum_nonneg fun t _ => sq_nonneg _
  have hexp : ∀ t ∈ s,
      (((s.card : ℚ) * f t - ∑ u ∈ s, f u) +
          ((s.card : ℚ) * g t - ∑ u ∈ s, g u)) ^ 2 =
        (((s.card : ℚ) * f t - ∑ u ∈ s, f u) ^ 2 +
            ((s.card : ℚ) * g t - ∑ u ∈ s, g u) ^ 2) +
          2 * (((s.card : ℚ) * f t - ∑ u ∈ s, f u) *
            ((s.card : ℚ) * g t - ∑ u ∈ s, g u)) := by
    intro t _
    ring
  rw [Finset.sum_congr rfl hexp, Finset.sum_add_distrib,
    Finset.sum_add_distrib, ← Finset.mul_sum, sum_ndev_sq, sum_ndev_sq,
    sum_ndev_mul, hcard] at hnn
  push_cast at hnn
  linarith

/-- Equality in AM-GM for the scaled deviations holds exactly when the two
deviation families coincide pointwise. -/
lemma Ecov_eq_iff {ι : Type} (s : Finset ι) (hcard : s.card = 49)
    (f g : ι → ℚ) :
    2 * (49 * (∑ t ∈ s, f t * g t) - (∑ t ∈ s, f t) * (∑ t ∈ s, g t)) =
        (49 * (∑ t ∈ s, f t * f t) - (∑ t ∈ s, f t) ^ 2) +
          (49 * (∑ t ∈ s, g t * g t) - (∑ t ∈ s, g t) ^ 2) ↔
      ∀ t ∈ s, 49 * f t - (∑ u ∈ s, f u) = 49 * g t - (∑ u ∈ s, g u) := by
  have hexp : ∀ t ∈ s,
      (((s.card : ℚ) * f t - ∑ u ∈ s, f u) -
          ((s.card : ℚ) * g t - ∑ u ∈ s, g u)) ^ 2 =
        (((s.card : ℚ) * f t - ∑ u ∈ s, f u) ^ 2 +
            ((s.card : ℚ) * g t - ∑ u ∈ s, g u) ^ 2) -
          2 * (((s.card : ℚ) * f t - ∑ u ∈ s, f u) *
            ((s.card : ℚ) * g t - ∑ u ∈ s, g u)) := by
    intro t _
    ring
  have hzero : (∑ t ∈ s,
      (((s.card : ℚ) * f t - ∑ u ∈ s, f u) -
        ((s.card : ℚ) * g t - ∑ u ∈ s, g u)) ^ 2 = 0) ↔
      ∀ t ∈ s, 49 * f t - (∑ u ∈ s, f u) = 49 * g t - (∑ u ∈ s, g u) := by
    rw [Finset.sum_eq_zero_iff_of_nonneg fun t _ => sq_nonneg _]
    constructor
    · intro hz t ht
      have := hz t ht
      have hsub := pow_eq_zero_iff (n := 2) (by norm_num) |>.mp this
      rw [hcard] at hsub
      have := sub_eq_zero.mp hsub
      push_cast at this ⊢
      linarith
    · intro hz t ht
      have := hz t ht
      rw [hcard]
      push_cast
      have : (49 : ℚ) * f t - (∑ u ∈ s, f u) -
          ((49 : ℚ) * g t - ∑ u ∈ s, g u) = 0 := by linarith
      rw [this]
      ring
  rw [← hzero]
  rw [Finset.sum_congr rfl hexp, Finset.sum_sub_distrib,
    Finset.sum_add_distrib, ← Finset.mul_sum, sum_ndev_sq, sum_ndev_sq,
    sum_ndev_mul, hcard]
  push_cast
  constructor
  · intro h
    linarith
  · intro h
    linarith

lemma ssimC1_pos : 0 < ssimC1 := by norm_num [ssimC1, ssimK1, dataRange]

lemma ssimC2_pos : 0 < ssimC2 := by norm_num [ssimC2, ssimK2, dataRange]

lemma ssimA1_le_ssimB1 (u v : ℚ) : ssimA1 u v ≤ ssimB1 u v := by
  unfold ssimA1 ssimB1
  nlinarith [sq_nonneg (u - v)]

lemma ssimA1_pos (u v : ℚ) (hu : 0 ≤ u) (hv : 0 ≤ v) : 0 < ssimA1 u v := by
  unfold ssimA1
  nlinarith [ssimC1_pos, mul_nonneg hu hv]

lemma ssimA1_eq_ssimB1_iff (u v : ℚ) : ssimA1 u v = ssimB1 u v ↔ u = v := by
  unfold ssimA1 ssimB1
  constructor
  · intro h
    have hsq : (u - v) ^ 2 = 0 := by nlinarith
    have := pow_eq_zero_iff (n := 2) (by norm_num) |>.mp hsq
    linarith [sub_eq_zero.mp this]
  · intro h
    rw [h]
    ring

lemma ssimA2_eq (P Q Pxy : ℚ) :
    ssimA2 (P / 49) (Q / 49) (Pxy / 49) =
      2 * (49 * Pxy - P * Q) / 2352 + ssimC2 := by
  unfold ssimA2 covNorm
  ring

lemma ssimB2_eq (P Pxx Q Qyy : ℚ) :
    ssimB2 (P / 49) (Pxx / 49) (Q / 49) (Qyy / 49) =
      ((49 * Pxx - P ^ 2) + (49 * Qyy - Q ^ 2)) / 2352 + ssimC2 := by
  unfold ssimB2 covNorm
  ring

/-- Generic bound: a fraction `A1·A2 / (B1·B2)` with `A1 ≤ B1`, `A2 ≤ B2`,
`0 < A1`, `0 < B2` is at most one. -/
lemma fracLeOne (A1 A2 B1 B2 : ℚ) (h1 : A1 ≤ B1) (h2 : A2 ≤ B2)
    (hA1 : 0 < A1) (hB2 : 0 < B2) : A1 * A2 / (B1 * B2) ≤ 1 := by
  have hB1 : 0 < B1 := lt_of_lt_of_le hA1 h1
  have hD : 0 < B1 * B2 := mul_pos hB1 hB2
  rw [div_le_one hD]
  rcases le_or_lt A2 0 with hA2 | hA2
  · nlinarith
  · have s1 : A1 * A2 ≤ B1 * A2 := mul_le_mul_of_nonneg_right h1 hA2.le
    have s2 : B1 * A2 ≤ B1 * B2 := mul_le_mul_of_nonneg_left h2 hB1.le
    linarith

/-- Generic bound: with additionally `-B2 < A2` the fraction is above `-1`. -/
lemma negOneLtFrac (A1 A2 B1 B2 : ℚ) (h1 : A1 ≤ B1) (hlow : -B2 < A2)
    (hA1 : 0 < A1) (hB2 : 0 < B2) : -1 < A1 * A2 / (B1 * B2) := by
  have hB1 : 0 < B1 := lt_of_lt_of_le hA1 h1
  have hD : 0 < B1 * B2 := mul_pos hB1 hB2
  rw [lt_div_iff hD]
  rcases le_or_lt A2 0 with hA2 | hA2
  · have s1 : B1 * A2 ≤ A1 * A2 := mul_le_mul_of_nonpos_right h1 hA2
    have s2 : B1 * -B2 < B1 * A2 := by
      exact mul_lt_mul_of_pos_left hlow hB1
    nlinarith
  · nlinarith

/-- Generic equality case: the fraction equals one exactly when both factors
agree. -/
lemma fracEqOneIff (A1 A2 B1 B2 : ℚ) (h1 : A1 ≤ B1) (h2 : A2 ≤ B2)
    (hA1 : 0 < A1) (hB2 : 0 < B2) :
    A1 * A2 / (B1 * B2) = 1 ↔ A1 = B1 ∧ A2 = B2 := by
  have hB1 : 0 < B1 := lt_of_lt_of_le hA1 h1
  have hD : 0 < B1 * B2 := mul_pos hB1 hB2
  constructor
  · intro h
    have hEq : A1 * A2 = B1 * B2 := (div_eq_one_iff_eq (ne_of_gt hD)).mp h
    have hA2pos : 0 < A2 := by
      by_contra hcon
      push_neg at hcon
      nlinarith
    have s1 : A1 * A2 ≤ B1 * A2 := mul_le_mul_of_nonneg_right h1 hA2pos.le
    have s2 : B1 * A2 ≤ B1 * B2 := mul_le_mul_of_nonneg_left h2 hB1.le
    have e1 : A1 * A2 = B1 * A2 := by linarith
    have e2 : B1 * A2 = B1 * B2 := by linarith
    exact ⟨mul_right_cancel₀ (ne_of_gt hA2pos) e1,
      mul_left_cancel₀ (ne_of_gt hB1) e2⟩
  · rintro ⟨e1, e2⟩
    rw [e1, e2]
    exact div_self (ne_of_gt hD)

/-- Master per-pixel lemma: every entry of the SSIM map of two grids with
non-negative pixels lies in `(-1, 1]`, and equals `1` exactly when the two
7×7 windows coincide. -/
lemma ssimMap_master (h w : ℕ) (x y : ℕ → ℕ → ℚ) (i j : ℕ) (hh : 7 ≤ h)
    (hw : 7 ≤ w) (hi : i < h) (hj : j < w) (hx : PixOk h w x)
    (hy : PixOk h w y) :
    ssimMap h w x y i j ≤ 1 ∧ -1 < ssimMap h w x y i j ∧
      (ssimMap h w x y i j = 1 ↔
        ∀ t ∈ winSet, winFam h w x i j t = winFam h w y i j t) := by
  have hPxx : winSum h w (fun p q => x p q * x p q) i j =
      ∑ t ∈ winSet, winFam h w x i j t * winFam h w x i j t := by
    rw [winSum_eq_sum_winFam]
    exact Finset.sum_congr rfl fun t _ => winFam_mul h w x x i j t
  have hQyy : winSum h w (fun p q => y p q * y p q) i j =
      ∑ t ∈ winSet, winFam h w y i j t * winFam h w y i j t := by
    rw [winSum_eq_sum_winFam]
    exact Finset.sum_congr rfl fun t _ => winFam_mul h w y y i j t
  have hPxy : winSum h w (fun p q => x p q * y p q) i j =
      ∑ t ∈ winSet, winFam h w x i j t * winFam h w y i j t := by
    rw [winSum_eq_sum_winFam]
    exact Finset.sum_congr rfl fun t _ => winFam_mul h w x y i j t
  have hP := winSum_eq_sum_winFam h w x i j
  have hQ := winSum_eq_sum_winFam h w y i j
  have hPnn : 0 ≤ ∑ t ∈ winSet, winFam h w x i j t :=
    Finset.sum_nonneg fun t ht => winFam_nonneg h w i j x hh hw hi hj hx t ht
  have hQnn : 0 ≤ ∑ t ∈ winSet, winFam h w y i j t :=
    Finset.sum_nonneg fun t ht => winFam_nonneg h w i j y hh hw hi hj hy t ht
  have hE := Evar_nonneg winSet winSet_card (winFam h w x i j)
  have hF := Evar_nonneg winSet winSet_card (winFam h w y i j)
  have hle := Ecov_le winSet winSet_card (winFam h w x i j) (winFam h w y i j)
  have hge := Ecov_ge winSet winSet_card (winFam h w x i j) (winFam h w y i j)
  have heqiff :=
    Ecov_eq_iff winSet winSet_card (winFam h w x i j) (winFam h w y i j)
  rw [ssimMap, ssimCore, uniformFilter, uniformFilter, uniformFilter,
    uniformFilter, uniformFilter, hP, hQ, hPxx, hQyy, hPxy]
  have h2352 : (0 : ℚ) < 2352 := by norm_num
  have hA2B2 :
      ssimA2 ((∑ t ∈ winSet, winFam h w x i j t) / 49)
          ((∑ t ∈ winSet, winFam h w y i j t) / 49)
          ((∑ t ∈ winSet, winFam h w x i j t * winFam h w y i j t) / 49) ≤
        ssimB2 ((∑ t ∈ winSet, winFam h w x i j t) / 49)
          ((∑ t ∈ winSet, winFam h w x i j t * winFam h w x i j t) / 49)
          ((∑ t ∈ winSet, winFam h w y i j t) / 49)
          ((∑ t ∈ winSet, winFam h w y i j t * winFam h w y i j t) / 49) := by
    rw [ssimA2_eq, ssimB2_eq]
    have := (div_le_div_right h2352).mpr hle
    linarith
  have hB2pos :
      0 < ssimB2 ((∑ t ∈ winSet, winFam h w x i j t) / 49)
          ((∑ t ∈ winSet, winFam h w x i j t * winFam h w x i j t) / 49)
          ((∑ t ∈ winSet, winFam h w y i j t) / 49)
          ((∑ t ∈ winSet, winFam h w y i j t * winFam h w y i j t) / 49) := by
    rw [ssimB2_eq]
    have := div_nonneg (by linarith : (0 : ℚ) ≤
      (49 * (∑ t ∈ winSet, winFam h w x i j t * winFam h w x i j t) -
          (∑ t ∈ winSet, winFam h w x i j t) ^ 2) +
        (49 * (∑ t ∈ winSet, winFam h w y i j t * winFam h w y i j t) -
          (∑ t ∈ winSet, winFam h w y i j t) ^ 2)) (le_of_lt h2352)
    linarith [ssimC2_pos]
  have hA2low :
      -(ssimB2 ((∑ t ∈ winSet, winFam h w x i j t) / 49)
          ((∑ t ∈ winSet, winFam h w x i j t * winFam h w x i j t) / 49)
          ((∑ t ∈ winSet, winFam h w y i j t) / 49)
          ((∑ t ∈ winSet, winFam h w y i j t * winFam h w y i j t) / 49)) <
        ssimA2 ((∑ t ∈ winSet, winFam h w x i j t) / 49)
          ((∑ t ∈ winSet, winFam h w y i j t) / 49)
          ((∑ t ∈ winSet, winFam h w x i j t * winFam h w y i j t) / 49) := by
    rw [ssimA2_eq, ssimB2_eq]
    have hdiv := (div_le_div_right h2352).mpr hge
    rw [neg_div] at hdiv
    linarith [ssimC2_pos]
  have hA1pos : 0 < ssimA1 ((∑ t ∈ winSet, winFam h w x i j t) / 49)
      ((∑ t ∈ winSet, winFam h w y i j t) / 49) :=
    ssimA1_pos _ _ (div_nonneg hPnn (by norm_num))
      (div_nonneg hQnn (by norm_num))
  refine ⟨fracLeOne _ _ _ _ (ssimA1_le_ssimB1 _ _) hA2B2 hA1pos hB2pos,
    negOneLtFrac _ _ _ _ (ssimA1_le_ssimB1 _ _) hA2low hA1pos hB2pos, ?_⟩
  rw [fracEqOneIff _ _ _ _ (ssimA1_le_ssimB1 _ _) hA2B2 hA1pos hB2pos]
  rw [ssimA1_eq_ssimB1_iff, ssimA2_eq, ssimB2_eq]
  constructor
  · rintro ⟨e1, e2⟩
    have hPQ : (∑ t ∈ winSet, winFam h w x i j t) =
        ∑ t ∈ winSet, winFam h w y i j t := by
      field_simp at e1
      exact e1
    have e2' : 2 * (49 * (∑ t ∈ winSet, winFam h w x i j t *
        winFam h w y i j t) -
          (∑ t ∈ winSet, winFam h w x i j t) *
            (∑ t ∈ winSet, winFam h w y i j t)) =
        (49 * (∑ t ∈ winSet, winFam h w x i j t * winFam h w x i j t) -
            (∑ t ∈ winSet, winFam h w x i j t) ^ 2) +
          (49 * (∑ t ∈ winSet, winFam h w y i j t * winFam h w y i j t) -
            (∑ t ∈ winSet, winFam h w y i j t) ^ 2) := by
      have hq : 2 * (49 * (∑ t ∈ winSet, winFam h w x i j t *
          winFam h w y i j t) -
            (∑ t ∈ winSet, winFam h w x i j t) *
              (∑ t ∈ winSet, winFam h w y i j t)) / 2352 =
          ((49 * (∑ t ∈ winSet, winFam h w x i j t * winFam h w x i j t) -
              (∑ t ∈ winSet, winFam h w x i j t) ^ 2) +
            (49 * (∑ t ∈ winSet, winFam h w y i j t * winFam h w y i j t) -
              (∑ t ∈ winSet, winFam h w y i j t) ^ 2)) / 2352 := by
        linarith
      field_simp at hq
      linarith
    intro t ht
    have := heqiff.mp e2' t ht
    rw [hPQ] at this
    linarith
  · intro hall
    have hPQ : (∑ t ∈ winSet, winFam h w x i j t) =
        ∑ t ∈ winSet, winFam h w y i j t :=
      Finset.sum_congr rfl hall
    have e2' := heqiff.mpr ?_
    · constructor
      · rw [hPQ]
      · linarith
    · intro t ht
      rw [hall t ht, hPQ]

lemma reflectIdx_natCast (n p : ℕ) (hp : p < n) : reflectIdx n (p : ℤ) = p := by
  unfold reflectIdx
  split_ifs <;> omega

/-- Coverage: if the two grids agree on every 7×7 window centred in the
crop region, they agree on every in-range pixel (the crop windows cover the
whole grid when `h, w ≥ 7`). -/
lemma pixel_eq_of_crop_windows (h w : ℕ) (x y : ℕ → ℕ → ℚ) (hh : 7 ≤ h)
    (hw : 7 ≤ w)
    (hwin : ∀ a ∈ Finset.range (h - 6), ∀ b ∈ Finset.range (w - 6),
      ∀ t ∈ winSet, winFam h w x (a + 3) (b + 3) t =
        winFam h w y (a + 3) (b + 3) t) :
    ∀ p, p < h → ∀ q, q < w → x p q = y p q := by
  intro p hp q hq
  have ha : min (max p 3) (h - 4) - 3 ∈ Finset.range (h - 6) := by
    simp only [Finset.mem_range]
    omega
  have hb : min (max q 3) (w - 4) - 3 ∈ Finset.range (w - 6) := by
    simp only [Finset.mem_range]
    omega
  have ht : (p + 3 - min (max p 3) (h - 4), q + 3 - min (max q 3) (w - 4)) ∈
      winSet := by
    simp only [winSet, Finset.mem_product, Finset.mem_range]
    omega
  have hmain := hwin _ ha _ hb _ ht
  unfold winFam winIdx at hmain
  have e1 : ((min (max p 3) (h - 4) - 3 + 3 : ℕ) : ℤ) +
      ((p + 3 - min (max p 3) (h - 4) : ℕ) : ℤ) - 3 = (p : ℤ) := by omega
  have e2 : ((min (max q 3) (w - 4) - 3 + 3 : ℕ) : ℤ) +
      ((q + 3 - min (max q 3) (w - 4) : ℕ) : ℤ) - 3 = (q : ℤ) := by omega
  simp only at hmain
  rw [e1, e2, reflectIdx_natCast h p hp, reflectIdx_natCast w q hq] at hmain
  exact hmain

/-- Master score lemma: the SSIM score of two `h × w` grids (`h, w ≥ 7`,
non-negative pixels) lies in `(-1, 1]` and equals `1` exactly when the two
grids are pixel-identical. -/
lemma ssimScore_master (h w : ℕ) (x y : ℕ → ℕ → ℚ) (hh : 7 ≤ h) (hw : 7 ≤ w)
    (hx : PixOk h w x) (hy : PixOk h w y) :
    ssimScore h w x y ≤ 1 ∧ -1 < ssimScore h w x y ∧
      (ssimScore h w x y = 1 ↔ ∀ p, p < h → ∀ q, q < w → x p q = y p q) := by
  have hcntn : 0 < (h - 6) * (w - 6) := Nat.mul_pos (by omega) (by omega)
  have hcnt : (0 : ℚ) < (((h - 6) * (w - 6) : ℕ) : ℚ) := by exact_mod_cast hcntn
  have hmaster : ∀ a ∈ Finset.range (h - 6), ∀ b ∈ Finset.range (w - 6),
      ssimMap h w x y (a + 3) (b + 3) ≤ 1 ∧
        -1 < ssimMap h w x y (a + 3) (b + 3) ∧
        (ssimMap h w x y (a + 3) (b + 3) = 1 ↔
          ∀ t ∈ winSet, winFam h w x (a + 3) (b + 3) t =
            winFam h w y (a + 3) (b + 3) t) := by
    intro a ha b hb
    rw [Finset.mem_range] at ha hb
    exact ssimMap_master h w x y (a + 3) (b + 3) hh hw (by omega) (by omega)
      hx hy
  have hsum_le : (∑ a ∈ Finset.range (h - 6), ∑ b ∈ Finset.range (w - 6),
      ssimMap h w x y (a + 3) (b + 3)) ≤ (((h - 6) * (w - 6) : ℕ) : ℚ) := by
    calc (∑ a ∈ Finset.range (h - 6), ∑ b ∈ Finset.range (w - 6),
        ssimMap h w x y (a + 3) (b + 3)) ≤
        ∑ _a ∈ Finset.range (h - 6), ∑ _b ∈ Finset.range (w - 6), (1 : ℚ) := by
          refine Finset.sum_le_sum fun a ha => Finset.sum_le_sum fun b hb => ?_
          exact (hmaster a ha b hb).1
      _ = (((h - 6) * (w - 6) : ℕ) : ℚ) := by
          simp [Finset.sum_const, Finset.card_range]
  have hsum_gt : -(((h - 6) * (w - 6) : ℕ) : ℚ) <
      ∑ a ∈ Finset.range (h - 6), ∑ b ∈ Finset.range (w - 6),
        ssimMap h w x y (a + 3) (b + 3) := by
    have hstep : (∑ _a ∈ Finset.range (h - 6), ∑ _b ∈ Finset.range (w - 6),
        (-1 : ℚ)) < ∑ a ∈ Finset.range (h - 6), ∑ b ∈ Finset.range (w - 6),
        ssimMap h w x y (a + 3) (b + 3) := by
      refine Finset.sum_lt_sum_of_nonempty ?_ fun a ha => ?_
      · exact Finset.nonempty_range_iff.mpr (by omega)
      · refine Finset.sum_lt_sum_of_nonempty ?_ fun b hb => ?_
        · exact Finset.nonempty_range_iff.mpr (by omega)
        · exact (hmaster a ha b hb).2.1
    have hconst : (∑ _a ∈ Finset.range (h - 6), ∑ _b ∈ Finset.range (w - 6),
        (-1 : ℚ)) = -(((h - 6) * (w - 6) : ℕ) : ℚ) := by
      simp [Finset.sum_const, Finset.card_range]
    linarith
  refine ⟨?_, ?_, ?_⟩
  · rw [ssimScore, div_le_one hcnt]
    exact hsum_le
  · rw [ssimScore, lt_div_iff₀ hcnt]
    linarith
  · constructor
    · intro h1
      rw [ssimScore, div_eq_one_iff_eq (ne_of_gt hcnt)] at h1
      have hprod : ∑ t ∈ Finset.range (h - 6) ×ˢ Finset.range (w - 6),
          ssimMap h w x y (t.1 + 3) (t.2 + 3) =
            (((h - 6) * (w - 6) : ℕ) : ℚ) := by
        rw [Finset.sum_product]
        exact h1
      have hz : ∑ t ∈ Finset.range (h - 6) ×ˢ Finset.range (w - 6),
          (1 - ssimMap h w x y (t.1 + 3) (t.2 + 3)) = 0 := by
        rw [Finset.sum_sub_distrib, hprod]
        simp [Finset.sum_const, Finset.card_product, Finset.card_range]
      have hall := (Finset.sum_eq_zero_iff_of_nonneg fun t htt => by
        rw [Finset.mem_product] at htt
        have := (hmaster t.1 htt.1 t.2 htt.2).1
        linarith).mp hz
      refine pixel_eq_of_crop_windows h w x y hh hw ?_
      intro a ha b hb
      have heq1 : ssimMap h w x y (a + 3) (b + 3) = 1 := by
        have := hall (a, b) (Finset.mem_product.mpr ⟨ha, hb⟩)
        simp only at this
        linarith
      exact (hmaster a ha b hb).2.2.mp heq1
    · intro hpix
      have hone : ∀ a ∈ Finset.range (h - 6), ∀ b ∈ Finset.range (w - 6),
          ssimMap h w x y (a + 3) (b + 3) = 1 := by
        intro a ha b hb
        refine (hmaster a ha b hb).2.2.mpr fun t ht => ?_
        rw [Finset.mem_range] at ha hb
        obtain ⟨m1, m2⟩ := winIdx_mem h w (a + 3) (b + 3) hh hw (by omega)
          (by omega) t ht
        exact hpix _ m1 _ m2
      rw [ssimScore]
      rw [Finset.sum_congr rfl fun a ha =>
        Finset.sum_congr rfl fun b hb => hone a ha b hb]
      rw [div_eq_one_iff_eq (ne_of_gt hcnt)]
      simp [Finset.sum_const, Finset.card_range]

/-- All in-range entries of a grid, row-major (models flattening a numpy
array). -/
def gridList (h w : ℕ) (d : ℕ → ℕ → ℚ) : List ℚ :=
  (List.range h).bind fun i => (List.range w).map (d i)

/-- numpy `arr.min()` on a flattened non-empty list (the `[]` value is junk;
numpy raises on an empty array, and every use below is guarded by non-empty
dimensions). -/
def listMin : List ℚ → ℚ
  | [] => 0
  | a :: as => as.foldl min a

/-- numpy `arr.max()`, as `listMin`. -/
def listMax : List ℚ → ℚ
  | [] => 0
  | a :: as => as.foldl max a

/-- The literal `1e-9` guarding the normalization denominator. -/
def npEps : ℚ := 1 / 1000000000

def gridMin (h w : ℕ) (d : ℕ → ℕ → ℚ) : ℚ := listMin (gridList h w d)

def gridMax (h w : ℕ) (d : ℕ → ℕ → ℚ) : ℚ := listMax (gridList h w d)

/-- The denominator `dmax - dmin + 1e-9` of the min-max normalization in
`ssim_diff`. -/
def normDenom (h w : ℕ) (d : ℕ → ℕ → ℚ) : ℚ :=
  gridMax h w d - gridMin h w d + npEps

/-- One entry of `(diff - dmin) / (dmax - dmin + 1e-9) * 255` before the
`uint8` cast. -/
def normScaled (h w : ℕ) (d : ℕ → ℕ → ℚ) (i j : ℕ) : ℚ :=
  (d i j - gridMin h w d) / normDenom h w d * 255

/-- numpy `.astype("uint8")` on a float: truncation toward zero followed by
wrap-around mod 256 (for the non-negative values produced here, truncation
is the floor). -/
def astypeUint8 (q : ℚ) : ℤ := ⌊q⌋ % 256

/-- One entry of the normalized `uint8` dissimilarity grid `norm` in
`ssim_diff`. -/
def normMap (h w : ℕ) (d : ℕ → ℕ → ℚ) (i j : ℕ) : ℤ :=
  astypeUint8 (normScaled h w d i j)

/-- The band height of `guess_zone`: `h // 3 if h >= 3 else 1`.  Note this
is always at least 1. -/
def zoneBand (h : ℕ) : ℕ := if 3 ≤ h then h / 3 else 1

/-- numpy `.mean()` of the row slice `d[lo:hi, :]` of an `h × w` grid, with
Python slice clamping.  An empty slice has mean NaN (numpy emits
`RuntimeWarning: Mean of empty slice` and yields `nan`, not an exception);
NaN is modelled as `none`. -/
def sliceMean (h w : ℕ) (d : ℕ → ℕ → ℚ) (lo hi : ℕ) : Option ℚ :=
  if min hi h ≤ lo ∨ w = 0 then none
  else some ((∑ i ∈ Finset.Ico lo (min hi h), ∑ j ∈ Finset.range w, d i j) /
    (((min hi h - lo) * w : ℕ) : ℚ))

/-- The `zones` list of `guess_zone`: three labelled band deviations.  The
`if band > 0 else 0` fallback of the source is translated faithfully; since
`zoneBand h ≥ 1` always, the `else 0` branches are dead and an empty band
yields NaN (`none`), not `0`. -/
def zoneDeviations (h w : ℕ) (d : ℕ → ℕ → ℚ) : List (String × Option ℚ) :=
  [("top", if 0 < zoneBand h then sliceMean h w d 0 (zoneBand h) else some 0),
   ("middle", if 0 < zoneBand h then
     sliceMean h w d (zoneBand h) (2 * zoneBand h) else some 0),
   ("bottom", if 0 < zoneBand h then
     sliceMean h w d (2 * zoneBand h) h else some 0)]

/-- Python `<` on float keys that may be NaN: every comparison involving
NaN is false. -/
def pyFloatLt : Option ℚ → Option ℚ → Bool
  | some a, some b => decide (a < b)
  | _, _ => false

/-- Stable insertion of an element into a descending-sorted list: the new
element (earlier in the original list) passes every element strictly greater
than it and lands before the first element not greater.  Extensionally equal
to CPython's stable `list.sort(key=..., reverse=True)` on non-NaN keys; on
NaN keys CPython's order is unspecified and only membership matters. -/
def insertDesc (x : String × Option ℚ) :
    List (String × Option ℚ) → List (String × Option ℚ)
  | [] => [x]
  | y :: ys => if pyFloatLt x.2 y.2 then y :: insertDesc x ys else x :: y :: ys

/-- Stable descending sort by the deviation key. -/
def sortDesc : List (String × Option ℚ) → List (String × Option ℚ)
  | [] => []
  | x :: xs => insertDesc x (sortDesc xs)

/-- `guess_zone`: sort the three labelled band means descending and return
the first label (`zones.sort(key=lambda x: x[1], reverse=True);
return zones[0][0]`). -/
def guess_zone (h w : ℕ) (d : ℕ → ℕ → ℚ) : String :=
  ((sortDesc (zoneDeviations h w d)).headD ("", none)).1

/-- A decoded colour image as produced by `cv2.imread`: a BGR triple per
pixel plus dimensions. -/
structure CMat where
  h : ℕ
  w : ℕ
  pix : ℕ → ℕ → ℚ × ℚ × ℚ

/-- A single-channel image. -/
structure Mat where
  h : ℕ
  w : ℕ
  pix : ℕ → ℕ → ℚ

/-- `to_gray`: `cv2.cvtColor(img, cv2.COLOR_BGR2GRAY)` in exact arithmetic,
`Y = 0.299 R + 0.587 G + 0.114 B` on BGR-ordered channels (the `ndim == 2`
pass-through branch is dead in the pipeline because `cv2.imread` decodes to
three channels). -/
def to_gray (m : CMat) : Mat :=
  ⟨m.h, m.w, fun i j =>
    299 / 1000 * (m.pix i j).2.2 + 587 / 1000 * (m.pix i j).2.1 +
      114 / 1000 * (m.pix i j).1⟩

/-- Clamp an integer index into `[0, n)` (bilinear border replication). -/
def clampIdx (n : ℕ) (z : ℤ) : ℕ := (min (max z 0) ((n : ℤ) - 1)).toNat

/-- Linear interpolation. -/
def lerp (t a b : ℚ) : ℚ := (1 - t) * a + t * b

/-- Componentwise linear interpolation of BGR triples. -/
def lerp3 (t : ℚ) (a b : ℚ × ℚ × ℚ) : ℚ × ℚ × ℚ :=
  (lerp t a.1 b.1, lerp t a.2.1 b.2.1, lerp t a.2.2 b.2.2)

/-- `cv2.resize(m, (w, h))` with the default `INTER_LINEAR` interpolation in
exact arithmetic: half-pixel-centre source coordinates
`src = (dst + 0.5) * scale - 0.5`, bilinear blend of the four clamped
neighbours.  The output always has the requested `h × w` shape. -/
def cvResize (m : CMat) (w h : ℕ) : CMat :=
  ⟨h, w, fun i j =>
    let fy : ℚ := ((i : ℚ) + 1 / 2) * ((m.h : ℚ) / (h : ℚ)) - 1 / 2
    let fx : ℚ := ((j : ℚ) + 1 / 2) * ((m.w : ℚ) / (w : ℚ)) - 1 / 2
    let y0 : ℤ := ⌊fy⌋
    let x0 : ℤ := ⌊fx⌋
    lerp3 (fy - y0)
      (lerp3 (fx - x0) (m.pix (clampIdx m.h y0) (clampIdx m.w x0))
        (m.pix (clampIdx m.h y0) (clampIdx m.w (x0 + 1))))
      (lerp3 (fx - x0) (m.pix (clampIdx m.h (y0 + 1)) (clampIdx m.w x0))
        (m.pix (clampIdx m.h (y0 + 1)) (clampIdx m.w (x0 + 1))))⟩

/-- `resize_to_min`: `h = min(a.shape[0], b.shape[0])`,
`w = min(a.shape[1], b.shape[1])`, then `cv2.resize(a, (w, h))` and
`cv2.resize(b, (w, h))`. -/
def resize_to_min (a b : CMat) : CMat × CMat :=
  (cvResize a (min a.w b.w) (min a.h b.h),
   cvResize b (min a.w b.w) (min a.h b.h))

/-- Hamming distance of two fingerprints: `imagehash.__sub__` counts the
positions where the flattened bit arrays differ. -/
def phashHamming (x y : List Bool) : ℕ :=
  (List.zipWith (fun a b => a != b) x y).count true

/-- External, deterministic library functions the script calls whose values
no claim depends on: `cv2.imread` (indexed by opaque file content, `none` on
decode failure), `imagehash.phash` of the same content, and the
`cv2.COLORMAP_JET` lookup table. -/
structure ExtEnv where
  decode : ℕ → Option CMat
  phashBits : ℕ → List Bool
  cmap : ℤ → ℚ × ℚ × ℚ

/-- `phash_distance`: hash both file contents and take the Hamming
distance. -/
def phash_distance (ext : ExtEnv) (ca cb : ℕ) : ℕ :=
  phashHamming (ext.phashBits ca) (ext.phashBits cb)

/-- `ssim_diff`: resize the pair to the common minimum, grayscale, compute
`ssim(..., full=True)`, then `diff = 1 - S` and the min-max-normalized
`uint8` grid and the JET heatmap.  Returns `(score, heat, norm)`. -/
def ssim_diff (ext : ExtEnv) (a b : CMat) : ℚ × CMat × (ℕ → ℕ → ℤ) :=
  let r := resize_to_min a b
  let ag := to_gray r.1
  let bg := to_gray r.2
  let score := ssimScore ag.h ag.w ag.pix bg.pix
  let diff : ℕ → ℕ → ℚ := fun i j => 1 - ssimMap ag.h ag.w ag.pix bg.pix i j
  let norm : ℕ → ℕ → ℤ := fun i j => normMap ag.h ag.w diff i j
  (score, ⟨ag.h, ag.w, fun i j => ext.cmap (norm i j)⟩, norm)

/-- `SSIM_THRESHOLD = float(os.environ.get("SSIM_THRESHOLD", "0.985"))`:
run-level configuration with default `0.985`. -/
def SSIM_THRESHOLD (env : Option ℚ) : ℚ := env.getD (985 / 1000)

/-- `PHASH_THRESHOLD = int(os.environ.get("PHASH_THRESHOLD", "8"))`:
run-level configuration with default `8`. -/
def PHASH_THRESHOLD (env : Option ℤ) : ℤ := env.getD 8

/-- The change classifier:
`changed = (ssim_score < SSIM_THRESHOLD) or (pdelta > PHASH_THRESHOLD)`. -/
def classifyChanged (score : ℚ) (pdelta : ℤ) (ssimT : ℚ) (phashT : ℤ) :
    Bool :=
  decide (score < ssimT) || decide (pdelta > phashT)

/-- Tokens of the four `TS_FORMATS` patterns: the six datetime fields, a
literal character, and format whitespace (which CPython's `_strptime`
compiles to the regex `\s+`). -/
inductive TsTok where
  | Y
  | m
  | d
  | H
  | M
  | Sec
  | lit (c : Char)
  | ws
deriving DecidableEq

/-- The six capture fields with `strptime`'s defaults
(year 1900, month 1, day 1, midnight). -/
structure TsFields where
  year : ℕ
  month : ℕ
  day : ℕ
  hour : ℕ
  minute : ℕ
  second : ℕ
deriving DecidableEq

def tsDefaults : TsFields := ⟨1900, 1, 1, 0, 0, 0⟩

def digitVal (c : Char) : ℕ := c.toNat - 48

/-- Consume exactly `k` digits, accumulating their value. -/
def takeDigits : ℕ → ℕ → List Char → Option (ℕ × List Char)
  | 0, acc, s => some (acc, s)
  | _ + 1, _, [] => none
  | k + 1, acc, c :: s =>
    if c.isDigit then takeDigits k (acc * 10 + digitVal c) s else none

/-- Alternatives of a two-digit branch `p1 p2` of a field regex. -/
def twoDigitAlt (p1 p2 : Char → Bool) (s : List Char) :
    List (ℕ × List Char) :=
  match s with
  | c1 :: c2 :: r =>
    if p1 c1 && p2 c2 then [(digitVal c1 * 10 + digitVal c2, r)] else []
  | _ => []

/-- Alternatives of a one-digit branch of a field regex. -/
def oneDigitAlt (p : Char → Bool) (s : List Char) : List (ℕ × List Char) :=
  match s with
  | c :: r => if p c then [(digitVal c, r)] else []
  | _ => []

/-- `%Y` compiles to `\d\d\d\d` in CPython's `_strptime`: exactly four
digits, no shorter years. -/
def altsY (s : List Char) : List (ℕ × List Char) :=
  (takeDigits 4 0 s).toList

/-- `%m` compiles to `(1[0-2]|0[1-9]|[1-9])`. -/
def altsMonth (s : List Char) : List (ℕ × List Char) :=
  twoDigitAlt (· = '1') (fun c => '0' ≤ c && c ≤ '2') s ++
    twoDigitAlt (· = '0') (fun c => '1' ≤ c && c ≤ '9') s ++
    oneDigitAlt (fun c => '1' ≤ c && c ≤ '9') s

/-- The trailing ` [1-9]` (space-digit) alternative of CPython's `%d`
regex (its comment calls it a hack for ANSI C `%c`); `int(" 5")` strips the
space, so the value is the digit. -/
def spaceDigitAlt (s : List Char) : List (ℕ × List Char) :=
  match s with
  | ' ' :: c :: r => if '1' ≤ c && c ≤ '9' then [(digitVal c, r)] else []
  | _ => []

/-- `%d` compiles to `(3[01]|[12]\d|0[1-9]|[1-9]| [1-9])`. -/
def altsDay (s : List Char) : List (ℕ × List Char) :=
  twoDigitAlt (· = '3') (fun c => c = '0' || c = '1') s ++
    twoDigitAlt (fun c => c = '1' || c = '2') Char.isDigit s ++
    twoDigitAlt (· = '0') (fun c => '1' ≤ c && c ≤ '9') s ++
    oneDigitAlt (fun c => '1' ≤ c && c ≤ '9') s ++
    spaceDigitAlt s

/-- `%H` compiles to `(2[0-3]|[0-1]\d|\d)`. -/
def altsHour (s : List Char) : List (ℕ × List Char) :=
  twoDigitAlt (· = '2') (fun c => '0' ≤ c && c ≤ '3') s ++
    twoDigitAlt (fun c => c = '0' || c = '1') Char.isDigit s ++
    oneDigitAlt Char.isDigit s

/-- `%M` compiles to `([0-5]\d|\d)`. -/
def altsMinute (s : List Char) : List (ℕ × List Char) :=
  twoDigitAlt (fun c => '0' ≤ c && c ≤ '5') Char.isDigit s ++
    oneDigitAlt Char.isDigit s

/-- `%S` compiles to `(6[0-1]|[0-5]\d|\d)` (leap seconds are matched by the
regex and rejected later by the `datetime` constructor). -/
def altsSec (s : List Char) : List (ℕ × List Char) :=
  twoDigitAlt (· = '6') (fun c => c = '0' || c = '1') s ++
    twoDigitAlt (fun c => '0' ≤ c && c ≤ '5') Char.isDigit s ++
    oneDigitAlt Char.isDigit s

/-- Python regex `\s` (ASCII range). -/
def isPyWs (c : Char) : Bool :=
  c = ' ' || c = '\t' || c = '\n' || c = '\r' || c = '\x0B' || c = '\x0C'

/-- Remainders after consuming `\s+` greedily (longest consumption first,
as the backtracking regex engine tries them). -/
def wsRests (s : List Char) : List (List Char) :=
  (List.range (s.takeWhile isPyWs).length).map fun t =>
    s.drop ((s.takeWhile isPyWs).length - t)

/-- All prefix matches of one token, in the priority order of the compiled
regex's alternation. -/
def tokAlts : TsTok → List Char → List (ℕ × List Char)
  | .Y, s => altsY s
  | .m, s => altsMonth s
  | .d, s => altsDay s
  | .H, s => altsHour s
  | .M, s => altsMinute s
  | .Sec, s => altsSec s
  | .lit c, s =>
    match s with
    | c2 :: r => if c2 = c then [(0, r)] else []
    | [] => []
  | .ws, s => (wsRests s).map fun r => (0, r)

/-- Record a parsed field value. -/
def applyTok : TsTok → ℕ → TsFields → TsFields
  | .Y, v, f => {f with year := v}
  | .m, v, f => {f with month := v}
  | .d, v, f => {f with day := v}
  | .H, v, f => {f with hour := v}
  | .M, v, f => {f with minute := v}
  | .Sec, v, f => {f with second := v}
  | .lit _, _, f => f
  | .ws, _, f => f

/-- Depth-first backtracking over the token list: all prefix matches of the
whole pattern, most-preferred first — exactly the order in which
`re.match`'s backtracking engine finds them. -/
def parseFmt : List TsTok → TsFields → List Char → List (TsFields × List Char)
  | [], f, s => [(f, s)]
  | t :: ts, f, s =>
    (tokAlts t s).bind fun vr => parseFmt ts (applyTok t vr.1 f) vr.2

def isLeapYear (y : ℕ) : Bool := y % 4 = 0 && (y % 100 ≠ 0 || y % 400 = 0)

def daysInMonth (y m : ℕ) : ℕ :=
  if m = 2 then (if isLeapYear y then 29 else 28)
  else if m = 4 ∨ m = 6 ∨ m = 9 ∨ m = 11 then 30
  else 31

/-- A `datetime.datetime` value (time-of-day granularity: the parsed
formats carry no sub-second fields). -/
structure PyDateTime where
  year : ℕ
  month : ℕ
  day : ℕ
  hour : ℕ
  minute : ℕ
  second : ℕ
deriving DecidableEq

/-- Validation performed by the `datetime` constructor on the parsed
fields. -/
def validDateTime (f : TsFields) : Bool :=
  decide (1 ≤ f.year ∧ f.year ≤ 9999 ∧ 1 ≤ f.month ∧ f.month ≤ 12 ∧
    1 ≤ f.day ∧ f.day ≤ daysInMonth f.year f.month ∧ f.hour ≤ 23 ∧
    f.minute ≤ 59 ∧ f.second ≤ 59)

/-- `datetime.strptime(s, fmt)` for one format: `re.match` takes the first
prefix match of the backtracking search; `strptime` then rejects the match
if input remains unconsumed, and the `datetime` constructor rejects invalid
field combinations.  Any of these failures raises, which the caller's bare
`except` turns into trying the next format. -/
def strptimeFmt (toks : List TsTok) (s : List Char) : Option PyDateTime :=
  match parseFmt toks tsDefaults s with
  | [] => none
  | (f, rest) :: _ =>
    if rest.isEmpty && validDateTime f then
      some ⟨f.year, f.month, f.day, f.hour, f.minute, f.second⟩
    else none

def fmt1 : List TsTok :=
  [.Y, .lit '-', .m, .lit '-', .d, .lit '_', .H, .lit '-', .M, .lit '-',
   .Sec]

def fmt2 : List TsTok := [.Y, .m, .d, .lit '-', .H, .M, .Sec]

def fmt3 : List TsTok := [.Y, .m, .d, .lit '_', .H, .M, .Sec]

def fmt4 : List TsTok :=
  [.Y, .lit '-', .m, .lit '-', .d, .ws, .H, .lit '.', .M, .lit '.', .Sec]

/-- `TS_FORMATS = ("%Y-%m-%d_%H-%M-%S", "%Y%m%d-%H%M%S", "%Y%m%d_%H%M%S",
"%Y-%m-%d %H.%M.%S")`. -/
def TS_FORMATS : List (List TsTok) := [fmt1, fmt2, fmt3, fmt4]

/-- First format that parses wins (`for fmt in TS_FORMATS: try ...`). -/
def tryFormats : List (List TsTok) → List Char → Option PyDateTime
  | [], _ => none
  | fmt :: fs, s =>
    match strptimeFmt fmt s with
    | some t => some t
    | none => tryFormats fs s

/-- Characters after the last occurrence of `sep` (for paths produced by
`glob` this is `Path(p).name`). -/
def afterLastSep (sep : Char) (l : List Char) : List Char :=
  l.foldl (fun acc c => if c = sep then [] else acc ++ [c]) []

/-- Index of the last `.` in a name, if any. -/
def lastDotIdx (l : List Char) : Option ℕ :=
  match l.reverse.findIdx? (· = '.') with
  | some k => some (l.length - 1 - k)
  | none => none

/-- `Path(p).stem`: the final path component without its last suffix; a
leading dot or a trailing dot is not a suffix separator. -/
def pathStem (p : String) : String :=
  match lastDotIdx (afterLastSep '/' p.toList) with
  | some i =>
    if 0 < i ∧ i + 1 < (afterLastSep '/' p.toList).length then
      ⟨(afterLastSep '/' p.toList).take i⟩
    else ⟨afterLastSep '/' p.toList⟩
  | none => ⟨afterLastSep '/' p.toList⟩

/-- One capture file as the script sees it: its path, its stat mtime
(`none` when `Path(p).stat()` raises), and its opaque byte content. -/
structure FileInfo where
  path : String
  mtime : Option ℚ
  content : ℕ
deriving DecidableEq

/-- The three possible types of a `natural_key` result: a `datetime`, a
float mtime, or the stem string. -/
inductive PyKey where
  | dt (t : PyDateTime)
  | mtime (m : ℚ)
  | str (s : String)
deriving DecidableEq

/-- `natural_key`: try the four timestamp formats on the stem, fall back to
the stat mtime, fall back to the stem string. -/
def natural_key (f : FileInfo) : PyKey :=
  match tryFormats TS_FORMATS (pathStem f.path).toList with
  | some t => .dt t
  | none =>
    match f.mtime with
    | some m => .mtime m
    | none => .str (pathStem f.path)

/-- Python type of a key (`datetime` / `float` / `str`); comparisons across
different types raise `TypeError`. -/
def keyTag : PyKey → ℕ
  | .dt _ => 0
  | .mtime _ => 1
  | .str _ => 2

def dtKeyList (t : PyDateTime) : List ℕ :=
  [t.year, t.month, t.day, t.hour, t.minute, t.second]

/-- Lexicographic `≤` on equal-length ℕ lists (how `datetime` compares). -/
def natListLe : List ℕ → List ℕ → Bool
  | [], _ => true
  | _ :: _, [] => false
  | a :: as, b :: bs => decide (a < b) || (decide (a = b) && natListLe as bs)

/-- Key comparison used by the sort.  On keys of the same Python type it is
the type's total order; the cross-type branch is irrelevant because
`pySorted` models the `TypeError` before any cross-type comparison is
used. -/
def keyLeB : PyKey → PyKey → Bool
  | .dt a, .dt b => natListLe (dtKeyList a) (dtKeyList b)
  | .mtime a, .mtime b => decide (a ≤ b)
  | .str a, .str b => decide (a ≤ b)
  | a, b => decide (keyTag a ≤ keyTag b)

/-- Model of CPython `sorted(imgs, key=natural_key)`.  Timsort compares
keys with `<`; on a list containing keys of two different types among
`datetime`/`float`/`str` some cross-type comparison is always attempted
(the sorted prefix stays homogeneous until the first element of a second
type is inserted, and every comparison the binary insertion makes for it is
cross-type), raising `TypeError` — modelled as `none`.  On homogeneous keys
it sorts stably ascending, modelled by Mathlib's stable insertion sort with
the same order. -/
def pySorted (l : List FileInfo) : Option (List FileInfo) :=
  if ∀ a ∈ l, ∀ b ∈ l, keyTag (natural_key a) = keyTag (natural_key b) then
    some (l.insertionSort fun a b => keyLeB (natural_key a) (natural_key b))
  else none

/-- `a_path, b_path = imgs[-2], imgs[-1]` (guarded by `len(imgs) < 2:
continue`). -/
def selectPair (s : List FileInfo) : Option (FileInfo × FileInfo) :=
  if h2 : 2 ≤ s.length then
    some (s.get ⟨s.length - 2, by omega⟩, s.get ⟨s.length - 1, by omega⟩)
  else none

/-- One page directory: its name and the capture files collected by the
four `glob` patterns. -/
structure Page where
  name : String
  files : List FileInfo

/-- One row of the per-page result table (the artifact paths written to
disk are I/O concerns outside the comparison pipeline). -/
structure Row where
  page : String
  prev_image : String
  curr_image : String
  ssim : ℚ
  phash_delta : ℤ
  changed : Bool
  likely_zone : String

/-- Python `round` to the nearest integer, half to even. -/
def roundHalfEven (q : ℚ) : ℤ :=
  if q - ⌊q⌋ < 1 / 2 then ⌊q⌋
  else if 1 / 2 < q - ⌊q⌋ then ⌊q⌋ + 1
  else if ⌊q⌋ % 2 = 0 then ⌊q⌋ else ⌊q⌋ + 1

/-- `round(ssim_score, 5)` in exact arithmetic. -/
def pyRound5 (q : ℚ) : ℚ := (roundHalfEven (q * 100000) : ℚ) / 100000

/-- The per-page body of `main`'s loop: sort the captures by `natural_key`
(raising `TypeError` aborts the whole run: `Except.error`), skip pages with
fewer than two captures, select the last two, skip the page if either
decode yields `None`, otherwise compare, classify and localize. -/
def processPage (ext : ExtEnv) (ssimT : ℚ) (phashT : ℤ) (p : Page) :
    Except Unit (Option Row) :=
  match pySorted p.files with
  | none => .error ()
  | some imgs =>
    if imgs.length < 2 then .ok none
    else
      match selectPair imgs with
      | none => .ok none
      | some (fa, fb) =>
        match ext.decode fa.content, ext.decode fb.content with
        | some ia, some ib =>
          let res := ssim_diff ext ia ib
          let pdelta : ℤ := phash_distance ext fa.content fb.content
          let changed := classifyChanged res.1 pdelta ssimT phashT
          let zone := if changed then
            guess_zone res.2.1.h res.2.1.w
              (fun i j => ((res.2.2 i j : ℤ) : ℚ)) else ""
          .ok (some ⟨p.name, fa.path, fb.path, pyRound5 res.1, pdelta,
            changed, zone⟩)
        | _, _ => .ok none

/-- The whole run: process the pages in order, collecting the rows; a
`TypeError` from a sort aborts the run. -/
def runMain (ext : ExtEnv) (ssimT : ℚ) (phashT : ℤ) :
    List Page → Except Unit (List Row)
  | [] => .ok []
  | p :: ps =>
    match processPage ext ssimT phashT p with
    | .error e => .error e
    | .ok none => runMain ext ssimT phashT ps
    | .ok (some r) => (runMain ext ssimT phashT ps).map (r :: ·)

lemma foldl_min_le (l : List ℚ) (a : ℚ) :
    l.foldl min a ≤ a ∧ ∀ x ∈ l, l.foldl min a ≤ x := by
  induction l generalizing a with
  | nil => exact ⟨le_refl a, by simp⟩
  | cons b l ih =>
    refine ⟨?_, ?_⟩
    · exact le_trans (ih (min a b)).1 (min_le_left a b)
    · intro x hx
      rcases List.mem_cons.mp hx with rfl | hx
      · exact le_trans (ih (min a x)).1 (min_le_right a x)
      · exact (ih (min a b)).2 x hx

lemma le_foldl_max (l : List ℚ) (a : ℚ) :
    a ≤ l.foldl max a ∧ ∀ x ∈ l, x ≤ l.foldl max a := by
  induction l generalizing a with
  | nil => exact ⟨le_refl a, by simp⟩
  | cons b l ih =>
    refine ⟨?_, ?_⟩
    · exact le_trans (le_max_left a b) (ih (max a b)).1
    · intro x hx
      rcases List.mem_cons.mp hx with rfl | hx
      · exact le_trans (le_max_right a x) (ih (max a x)).1
      · exact (ih (max a b)).2 x hx

lemma listMin_le_of_mem (l : List ℚ) (x : ℚ) (hx : x ∈ l) : listMin l ≤ x := by
  cases l with
  | nil => cases hx
  | cons a as =>
    rcases List.mem_cons.mp hx with rfl | hx
    · exact (foldl_min_le as x).1
    · exact (foldl_min_le as a).2 x hx

lemma le_listMax_of_mem (l : List ℚ) (x : ℚ) (hx : x ∈ l) : x ≤ listMax l := by
  cases l with
  | nil => cases hx
  | cons a as =>
    rcases List.mem_cons.mp hx with rfl | hx
    · exact (le_foldl_max as x).1
    · exact (le_foldl_max as a).2 x hx

lemma mem_gridList (h w : ℕ) (d : ℕ → ℕ → ℚ) (i j : ℕ) (hi : i < h)
    (hj : j < w) : d i j ∈ gridList h w d := by
  simp only [gridList, List.mem_bind, List.mem_map, List.mem_range]
  exact ⟨i, hi, j, hj, rfl⟩

lemma phashHamming_self (l : List Bool) : phashHamming l l = 0 := by
  induction l with
  | nil => rfl
  | cons a l ih =>
    simp only [phashHamming, List.zipWith] at ih ⊢
    simp [ih, List.count_replicate]

lemma insertDesc_mem (x z : String × Option ℚ) (l : List (String × Option ℚ))
    (hz : z ∈ insertDesc x l) : z = x ∨ z ∈ l := by
  induction l with
  | nil => simpa [insertDesc] using hz
  | cons y ys ih =>
    rw [insertDesc] at hz
    split_ifs at hz
    · rcases List.mem_cons.mp hz with rfl | hz
      · exact Or.inr (List.mem_cons_self _ _)
      · rcases ih hz with rfl | hmem
        · exact Or.inl rfl
        · exact Or.inr (List.mem_cons_of_mem _ hmem)
    · rcases List.mem_cons.mp hz with rfl | hz
      · exact Or.inl rfl
      · exact Or.inr hz

lemma sortDesc_subset (l : List (String × Option ℚ))
    (z : String × Option ℚ) (hz : z ∈ sortDesc l) : z ∈ l := by
  induction l generalizing z with
  | nil => simp [sortDesc] at hz
  | cons x xs ih =>
    rw [sortDesc] at hz
    rcases insertDesc_mem x z (sortDesc xs) hz with rfl | hmem
    · exact List.mem_cons_self _ _
    · exact List.mem_cons_of_mem _ (ih z hmem)

lemma insertDesc_ne_nil (x : String × Option ℚ)
    (l : List (String × Option ℚ)) : insertDesc x l ≠ [] := by
  cases l with
  | nil => simp [insertDesc]
  | cons y ys =>
    rw [insertDesc]
    split_ifs <;> simp

/-- C1.  The change classifier is
`changed = (score < ssimThreshold) or (hashDistance > phashThreshold)`, and
the run-level defaults (environment unset) are `0.985` and `8`. -/
theorem change_classifier_spec :
    (∀ (score : ℚ) (pdelta : ℤ) (ssimT : ℚ) (phashT : ℤ),
      classifyChanged score pdelta ssimT phashT = true ↔
        (score < ssimT ∨ pdelta > phashT)) ∧
      SSIM_THRESHOLD none = 985 / 1000 ∧ PHASH_THRESHOLD none = 8 := by
  refine ⟨fun score pdelta ssimT phashT => ?_, rfl, rfl⟩
  simp [classifyChanged]

/-- C9.  `resize_to_min` returns two images of identical dimensions, equal
to the elementwise minimum of the input dimensions. -/
theorem resize_to_min_dims (a b : CMat) :
    (resize_to_min a b).1.h = (resize_to_min a b).2.h ∧
      (resize_to_min a b).1.w = (resize_to_min a b).2.w ∧
      (resize_to_min a b).1.h = min a.h b.h ∧
      (resize_to_min a b).1.w = min a.w b.w :=
  ⟨rfl, rfl, rfl, rfl⟩

/-- C4 (evaluation at the failing input).  On a 1×1 grid (height < 3) the
middle and bottom bands have zero rows, and the code assigns them the numpy
mean of an empty slice — NaN (`none`), not the value 0 claimed by the spec:
the guard `if band > 0 else 0` is dead because the band height is always at
least 1.  The localizer still returns a zone label without failing. -/
theorem guess_zone_empty_band_nan :
    zoneDeviations 1 1 (fun _ _ => 0) =
      [("top", some 0), ("middle", none), ("bottom", none)] ∧
      guess_zone 1 1 (fun _ _ => 0) = "top" := by
  constructor
  · norm_num [zoneDeviations, zoneBand, sliceMean]
  · norm_num [guess_zone, zoneDeviations, zoneBand, sliceMean, sortDesc,
      insertDesc, pyFloatLt]

/-- C6.  On any non-empty dissimilarity map — including a perfectly uniform
one — the min-max normalization denominator `dmax - dmin + 1e-9` is
strictly positive (no division by zero), and every entry of the normalized
`uint8` grid lies in `[0, 255]`; moreover the `uint8` cast does not wrap:
the stored value is the floor of the scaled value. -/
theorem normalization_safe (h w : ℕ) (d : ℕ → ℕ → ℚ) (hh : 1 ≤ h)
    (hw : 1 ≤ w) :
    0 < normDenom h w d ∧
      ∀ i, i < h → ∀ j, j < w →
        0 ≤ normMap h w d i j ∧ normMap h w d i j ≤ 255 ∧
          normMap h w d i j = ⌊normScaled h w d i j⌋ := by
  have hmem00 : d 0 0 ∈ gridList h w d := mem_gridList h w d 0 0 hh hw
  have hminmax : gridMin h w d ≤ gridMax h w d :=
    le_trans (listMin_le_of_mem _ _ hmem00) (le_listMax_of_mem _ _ hmem00)
  have heps : (0 : ℚ) < npEps := by norm_num [npEps]
  have hden : 0 < normDenom h w d := by
    rw [normDenom]
    linarith
  refine ⟨hden, fun i hi j hj => ?_⟩
  have hmem : d i j ∈ gridList h w d := mem_gridList h w d i j hi hj
  have hlo : gridMin h w d ≤ d i j := listMin_le_of_mem _ _ hmem
  have hhi : d i j ≤ gridMax h w d := le_listMax_of_mem _ _ hmem
  have hv0 : 0 ≤ normScaled h w d i j := by
    rw [normScaled]
    have := div_nonneg (by linarith : (0 : ℚ) ≤ d i j - gridMin h w d)
      hden.le
    linarith
  have hv255 : normScaled h w d i j < 255 := by
    rw [normScaled]
    have hratio : (d i j - gridMin h w d) / normDenom h w d < 1 := by
      rw [div_lt_one hden, normDenom]
      linarith
    nlinarith
  have hfl0 : 0 ≤ ⌊normScaled h w d i j⌋ := Int.floor_nonneg.mpr hv0
  have hfl255 : ⌊normScaled h w d i j⌋ < 256 := by
    have : ⌊normScaled h w d i j⌋ < (256 : ℤ) := by
      rw [Int.floor_lt]
      push_cast
      linarith
    exact this
  have hmod : normMap h w d i j = ⌊normScaled h w d i j⌋ := by
    rw [normMap, astypeUint8]
    exact Int.emod_eq_of_lt hfl0 hfl255
  refine ⟨by rw [hmod]; exact hfl0, by rw [hmod]; omega, hmod⟩

/-- Witness for C6 at a uniform 1×1 map (`min == max`). -/
theorem normalization_safe_witness :
    (1 : ℕ) ≤ 1 ∧
      (0 < normDenom 1 1 (fun _ _ => 5) ∧
        ∀ i, i < 1 → ∀ j, j < 1 →
          0 ≤ normMap 1 1 (fun _ _ => 5) i j ∧
            normMap 1 1 (fun _ _ => 5) i j ≤ 255 ∧
            normMap 1 1 (fun _ _ => 5) i j =
              ⌊normScaled 1 1 (fun _ _ => 5) i j⌋) :=
  ⟨le_refl 1, normalization_safe 1 1 (fun _ _ => 5) (le_refl 1) (le_refl 1)⟩

/-- C10.  On any grid with at least one row and one column (in fact on any
grid at all), `guess_zone` terminates and returns one of the three labels
`top`, `middle`, `bottom`, whatever the contents. -/
theorem guess_zone_total (h w : ℕ) (d : ℕ → ℕ → ℚ) (_hh : 1 ≤ h)
    (_hw : 1 ≤ w) :
    guess_zone h w d = "top" ∨ guess_zone h w d = "middle" ∨
      guess_zone h w d = "bottom" := by
  rw [guess_zone]
  have hne : sortDesc (zoneDeviations h w d) ≠ [] := by
    rw [zoneDeviations, sortDesc]
    exact insertDesc_ne_nil _ _
  obtain ⟨z, rest, hzr⟩ := List.exists_cons_of_ne_nil hne
  have hz : z ∈ zoneDeviations h w d := by
    refine sortDesc_subset _ z ?_
    rw [hzr]
    exact List.mem_cons_self _ _
  rw [hzr]
  simp only [List.headD_cons]
  have : z.1 = "top" ∨ z.1 = "middle" ∨ z.1 = "bottom" := by
    rw [zoneDeviations] at hz
    rcases List.mem_cons.mp hz with rfl | hz
    · exact Or.inl rfl
    rcases List.mem_cons.mp hz with rfl | hz
    · exact Or.inr (Or.inl rfl)
    rcases List.mem_cons.mp hz with rfl | hz
    · exact Or.inr (Or.inr rfl)
    · cases hz
  exact this

/-- Witness for C10 on a 1×1 grid. -/
theorem guess_zone_total_witness :
    (1 : ℕ) ≤ 1 ∧
      (guess_zone 1 1 (fun _ _ => 3) = "top" ∨
        guess_zone 1 1 (fun _ _ => 3) = "middle" ∨
        guess_zone 1 1 (fun _ _ => 3) = "bottom") :=
  ⟨le_refl 1, guess_zone_total 1 1 (fun _ _ => 3) (le_refl 1) (le_refl 1)⟩

/-- C2.  For grids of size at least the 7×7 SSIM window with non-negative
pixels (all `uint8` images): the SSIM score equals exactly 1 if and only if
the two normalized grids are pixel-identical; and the perceptual-hash
distance of two identical files (same content) is 0 for any deterministic
hash function. -/
theorem ssim_score_one_iff_identical (h w : ℕ) (x y : ℕ → ℕ → ℚ)
    (hh : 7 ≤ h) (hw : 7 ≤ w) (hx : PixOk h w x) (hy : PixOk h w y) :
    (ssimScore h w x y = 1 ↔ ∀ p, p < h → ∀ q, q < w → x p q = y p q) ∧
      ∀ (ext : ExtEnv) (fa fb : FileInfo), fa.content = fb.content →
        phash_distance ext fa.content fb.content = 0 := by
  refine ⟨(ssimScore_master h w x y hh hw hx hy).2.2, ?_⟩
  intro ext fa fb hc
  rw [phash_distance, hc]
  exact phashHamming_self _

/-- Witness for C2 at two all-zero 7×7 grids and two files with equal
content. -/
theorem ssim_score_one_iff_identical_witness :
    PixOk 7 7 (fun _ _ => (0 : ℚ)) ∧
      ((ssimScore 7 7 (fun _ _ => (0 : ℚ)) (fun _ _ => (0 : ℚ)) = 1 ↔
          ∀ p, p < 7 → ∀ q, q < 7 →
            (fun _ _ => (0 : ℚ)) p q = (fun _ _ => (0 : ℚ)) p q) ∧
        ∀ (ext : ExtEnv) (fa fb : FileInfo), fa.content = fb.content →
          phash_distance ext fa.content fb.content = 0) :=
  ⟨fun p _ q _ => le_refl 0,
    ssim_score_one_iff_identical 7 7 _ _ (by norm_num) (by norm_num)
      (fun p _ q _ => le_refl 0) (fun p _ q _ => le_refl 0)⟩

/-- A 7×7 checkerboard of 0/255 pixels. -/
def cbGrid : ℕ → ℕ → ℚ := fun i j => if (i + j) % 2 = 0 then 255 else 0

/-- Its photographic negative. -/
def cbGridInv : ℕ → ℕ → ℚ := fun i j => if (i + j) % 2 = 0 then 0 else 255

set_option maxRecDepth 8000 in
/-- C3 (counterexample).  The SSIM score is not confined to `[0, 1]`: on
the 7×7 checkerboard and its negative — a valid pair of `uint8` images —
the score is negative (it is `-2995307191159/3008397718841 ≈ -0.9956`),
because the windows are anticorrelated. -/
theorem ssim_score_negative_counterexample :
    ssimScore 7 7 cbGrid cbGridInv < 0 ∧ PixOk 7 7 cbGrid ∧
      PixOk 7 7 cbGridInv := by
  refine ⟨?_, ?_, ?_⟩
  · have e1 : winSum 7 7 cbGrid 3 3 = 6375 := by
      simp only [winSum, Finset.sum_range_succ, Finset.sum_range_zero]
      norm_num [reflectIdx, cbGrid]
      simp only [Int.reduceToNat]
      norm_num [cbGrid]
    have e2 : winSum 7 7 cbGridInv 3 3 = 6120 := by
      simp only [winSum, Finset.sum_range_succ, Finset.sum_range_zero]
      norm_num [reflectIdx, cbGridInv]
      simp only [Int.reduceToNat]
      norm_num [cbGridInv]
    have e3 : winSum 7 7 (fun p q => cbGrid p q * cbGrid p q) 3 3 =
        1625625 := by
      simp only [winSum, Finset.sum_range_succ, Finset.sum_range_zero]
      norm_num [reflectIdx, cbGrid]
      simp only [Int.reduceToNat]
      norm_num [cbGrid]
    have e4 : winSum 7 7 (fun p q => cbGridInv p q * cbGridInv p q) 3 3 =
        1560600 := by
      simp only [winSum, Finset.sum_range_succ, Finset.sum_range_zero]
      norm_num [reflectIdx, cbGridInv]
      simp only [Int.reduceToNat]
      norm_num [cbGridInv]
    have e5 : winSum 7 7 (fun p q => cbGrid p q * cbGridInv p q) 3 3 = 0 := by
      simp only [winSum, Finset.sum_range_succ, Finset.sum_range_zero]
      norm_num [reflectIdx, cbGrid, cbGridInv]
      simp only [Int.reduceToNat]
      norm_num [cbGrid, cbGridInv]
    rw [ssimScore]
    norm_num [Finset.sum_range_succ, Finset.sum_range_zero]
    rw [ssimMap, uniformFilter, uniformFilter, uniformFilter, uniformFilter,
      uniformFilter, e1, e2, e3, e4, e5]
    norm_num [ssimCore, ssimA1, ssimA2, ssimB1, ssimB2, ssimC1, ssimC2,
      ssimK1, ssimK2, dataRange, covNorm]
  · intro p _ q _
    rw [cbGrid]
    split_ifs <;> norm_num
  · intro p _ q _
    rw [cbGridInv]
    split_ifs <;> norm_num

/-- C3 (amended).  On grids of window size or larger with non-negative
pixels, the SSIM score lies in the half-open interval `(-1, 1]`, and it
attains `1` exactly on pixel-identical inputs. -/
theorem ssim_score_range (h w : ℕ) (x y : ℕ → ℕ → ℚ) (hh : 7 ≤ h)
    (hw : 7 ≤ w) (hx : PixOk h w x) (hy : PixOk h w y) :
    -1 < ssimScore h w x y ∧ ssimScore h w x y ≤ 1 ∧
      (ssimScore h w x y = 1 ↔ ∀ p, p < h → ∀ q, q < w → x p q = y p q) :=
  ⟨(ssimScore_master h w x y hh hw hx hy).2.1,
    (ssimScore_master h w x y hh hw hx hy).1,
    (ssimScore_master h w x y hh hw hx hy).2.2⟩

/-- Witness for the amended C3 at two constant 7×7 grids of value 128. -/
theorem ssim_score_range_witness :
    PixOk 7 7 (fun _ _ => (128 : ℚ)) ∧
      (-1 < ssimScore 7 7 (fun _ _ => (128 : ℚ)) (fun _ _ => (128 : ℚ)) ∧
        ssimScore 7 7 (fun _ _ => (128 : ℚ)) (fun _ _ => (128 : ℚ)) ≤ 1 ∧
        (ssimScore 7 7 (fun _ _ => (128 : ℚ)) (fun _ _ => (128 : ℚ)) = 1 ↔
          ∀ p, p < 7 → ∀ q, q < 7 →
            (fun _ _ => (128 : ℚ)) p q = (fun _ _ => (128 : ℚ)) p q)) :=
  ⟨fun p _ q _ => by norm_num,
    ssim_score_range 7 7 _ _ (by norm_num) (by norm_num)
      (fun p _ q _ => by norm_num) (fun p _ q _ => by norm_num)⟩

/-- C7.  For grids of height at least 3, `guess_zone` splits the rows into
`[0, h/3)`, `[h/3, 2(h/3))` and `[2(h/3), h)` — top and middle of height
`h div 3`, the remainder going to the bottom band — and returns the band of
highest mean deviation, ties resolved in the order top, middle, bottom. -/
theorem guess_zone_argmax (h w : ℕ) (d : ℕ → ℕ → ℚ) (hh : 3 ≤ h)
    (hw : 1 ≤ w) :
    guess_zone h w d =
      (if (∑ i ∈ Finset.range (h / 3), ∑ j ∈ Finset.range w, d i j) /
            ((h / 3 * w : ℕ) : ℚ) ≥
            (∑ i ∈ Finset.Ico (h / 3) (2 * (h / 3)),
              ∑ j ∈ Finset.range w, d i j) / ((h / 3 * w : ℕ) : ℚ) ∧
          (∑ i ∈ Finset.range (h / 3), ∑ j ∈ Finset.range w, d i j) /
            ((h / 3 * w : ℕ) : ℚ) ≥
            (∑ i ∈ Finset.Ico (2 * (h / 3)) h,
              ∑ j ∈ Finset.range w, d i j) /
              (((h - 2 * (h / 3)) * w : ℕ) : ℚ) then "top"
       else if (∑ i ∈ Finset.Ico (h / 3) (2 * (h / 3)),
            ∑ j ∈ Finset.range w, d i j) / ((h / 3 * w : ℕ) : ℚ) ≥
            (∑ i ∈ Finset.Ico (2 * (h / 3)) h,
              ∑ j ∈ Finset.range w, d i j) /
              (((h - 2 * (h / 3)) * w : ℕ) : ℚ) then "middle"
       else "bottom") := by
  set b := h / 3 with hb
  have hb1 : 1 ≤ b := by omega
  have hbh : b ≤ h := by omega
  have h2b : 2 * b ≤ h := by omega
  have h2blt : 2 * b < h := by omega
  have hbpos : 0 < zoneBand h := by
    rw [zoneBand, if_pos hh]
    omega
  have hzb : zoneBand h = b := by rw [zoneBand, if_pos hh]
  have hmT : sliceMean h w d 0 b =
      some ((∑ i ∈ Finset.range b, ∑ j ∈ Finset.range w, d i j) /
        ((b * w : ℕ) : ℚ)) := by
    rw [sliceMean, if_neg]
    · rw [min_eq_left hbh, ← Finset.range_eq_Ico, Nat.sub_zero]
    · rintro (hc | hc) <;> omega
  have hmM : sliceMean h w d b (2 * b) =
      some ((∑ i ∈ Finset.Ico b (2 * b), ∑ j ∈ Finset.range w, d i j) /
        ((b * w : ℕ) : ℚ)) := by
    rw [sliceMean, if_neg]
    · rw [min_eq_left h2b]
      have hsub : 2 * b - b = b := by omega
      rw [hsub]
    · rintro (hc | hc) <;> omega
  have hmB : sliceMean h w d (2 * b) h =
      some ((∑ i ∈ Finset.Ico (2 * b) h, ∑ j ∈ Finset.range w, d i j) /
        (((h - 2 * b) * w : ℕ) : ℚ)) := by
    rw [sliceMean, if_neg]
    · rw [min_self]
    · rintro (hc | hc) <;> omega
  rw [guess_zone, zoneDeviations]
  simp only [hzb] at hbpos ⊢
  simp only [hbpos, if_true, hmT, hmM, hmB]
  simp only [sortDesc]
  rcases lt_or_ge ((∑ i ∈ Finset.Ico b (2 * b), ∑ j ∈ Finset.range w,
      d i j) / ((b * w : ℕ) : ℚ))
      ((∑ i ∈ Finset.Ico (2 * b) h, ∑ j ∈ Finset.range w, d i j) /
        (((h - 2 * b) * w : ℕ) : ℚ)) with hmb | hmb
  · rcases lt_or_ge ((∑ i ∈ Finset.range b, ∑ j ∈ Finset.range w, d i j) /
        ((b * w : ℕ) : ℚ))
        ((∑ i ∈ Finset.Ico (2 * b) h, ∑ j ∈ Finset.range w, d i j) /
          (((h - 2 * b) * w : ℕ) : ℚ)) with htb | htb
    · rw [if_neg (fun hcon => absurd hcon.2 (not_le.mpr htb)),
        if_neg (not_le.mpr hmb)]
      push_cast at hmb htb
      simp [insertDesc, pyFloatLt, hmb, htb]
    · rw [if_pos ⟨le_trans hmb.le htb, htb⟩]
      push_cast at hmb htb
      simp [insertDesc, pyFloatLt, hmb, not_lt.mpr htb]
  · rcases lt_or_ge ((∑ i ∈ Finset.range b, ∑ j ∈ Finset.range w, d i j) /
        ((b * w : ℕ) : ℚ))
        ((∑ i ∈ Finset.Ico b (2 * b), ∑ j ∈ Finset.range w, d i j) /
          ((b * w : ℕ) : ℚ)) with htm | htm
    · rw [if_neg (fun hcon => absurd hcon.1 (not_le.mpr htm)), if_pos hmb]
      push_cast at hmb htm
      simp [insertDesc, pyFloatLt, not_lt.mpr hmb, htm]
    · rw [if_pos ⟨htm, le_trans hmb htm⟩]
      push_cast at hmb htm
      simp [insertDesc, pyFloatLt, not_lt.mpr hmb, not_lt.mpr htm]

/-- Witness for C7 on a 3×1 grid whose middle row deviates. -/
theorem guess_zone_argmax_witness :
    ((3 : ℕ) ≤ 3 ∧ (1 : ℕ) ≤ 1) ∧
      guess_zone 3 1 (fun i _ => if i = 1 then (10 : ℚ) else 0) =
        (if (∑ i ∈ Finset.range (3 / 3), ∑ j ∈ Finset.range 1,
              (fun i _ => if i = 1 then (10 : ℚ) else 0) i j) /
              ((3 / 3 * 1 : ℕ) : ℚ) ≥
              (∑ i ∈ Finset.Ico (3 / 3) (2 * (3 / 3)), ∑ j ∈ Finset.range 1,
                (fun i _ => if i = 1 then (10 : ℚ) else 0) i j) /
                ((3 / 3 * 1 : ℕ) : ℚ) ∧
            (∑ i ∈ Finset.range (3 / 3), ∑ j ∈ Finset.range 1,
              (fun i _ => if i = 1 then (10 : ℚ) else 0) i j) /
              ((3 / 3 * 1 : ℕ) : ℚ) ≥
              (∑ i ∈ Finset.Ico (2 * (3 / 3)) 3, ∑ j ∈ Finset.range 1,
                (fun i _ => if i = 1 then (10 : ℚ) else 0) i j) /
                (((3 - 2 * (3 / 3)) * 1 : ℕ) : ℚ) then "top"
         else if (∑ i ∈ Finset.Ico (3 / 3) (2 * (3 / 3)),
              ∑ j ∈ Finset.range 1,
              (fun i _ => if i = 1 then (10 : ℚ) else 0) i j) /
              ((3 / 3 * 1 : ℕ) : ℚ) ≥
              (∑ i ∈ Finset.Ico (2 * (3 / 3)) 3, ∑ j ∈ Finset.range 1,
                (fun i _ => if i = 1 then (10 : ℚ) else 0) i j) /
                (((3 - 2 * (3 / 3)) * 1 : ℕ) : ℚ) then "middle"
         else "bottom") :=
  ⟨⟨le_refl 3, le_refl 1⟩,
    guess_zone_argmax 3 1 (fun i _ => if i = 1 then (10 : ℚ) else 0)
      (le_refl 3) (le_refl 1)⟩

lemma natListLe_total (a b : List ℕ) :
    natListLe a b = true ∨ natListLe b a = true := by
  induction a generalizing b with
  | nil => exact Or.inl rfl
  | cons x xs ih =>
    cases b with
    | nil => exact Or.inr rfl
    | cons y ys =>
      rcases Nat.lt_trichotomy x y with hlt | heq | hgt
      · left
        simp [natListLe, hlt]
      · subst heq
        rcases ih ys with hr | hr
        · left
          simp [natListLe, hr]
        · right
          simp [natListLe, hr]
      · right
        simp [natListLe, hgt]

lemma natListLe_trans (a b c : List ℕ) (h1 : natListLe a b = true)
    (h2 : natListLe b c = true) : natListLe a c = true := by
  induction a generalizing b c with
  | nil => rfl
  | cons x xs ih =>
    cases b with
    | nil => simp [natListLe] at h1
    | cons y ys =>
      cases c with
      | nil => simp [natListLe] at h2
      | cons z zs =>
        simp only [natListLe, Bool.or_eq_true, Bool.and_eq_true,
          decide_eq_true_eq] at h1 h2 ⊢
        rcases h1 with h1 | ⟨rfl, h1⟩
        · rcases h2 with h2 | ⟨rfl, h2⟩
          · exact Or.inl (lt_trans h1 h2)
          · exact Or.inl h1
        · rcases h2 with h2 | ⟨rfl, h2⟩
          · exact Or.inl h2
          · exact Or.inr ⟨rfl, ih ys zs h1 h2⟩

lemma keyLeB_total (k1 k2 : PyKey) :
    keyLeB k1 k2 = true ∨ keyLeB k2 k1 = true := by
  cases k1 <;> cases k2 <;> simp [keyLeB, keyTag]
  · exact natListLe_total _ _
  · exact le_total _ _
  · exact le_total _ _

lemma keyLeB_trans (k1 k2 k3 : PyKey) (h1 : keyLeB k1 k2 = true)
    (h2 : keyLeB k2 k3 = true) : keyLeB k1 k3 = true := by
  cases k1 <;> cases k2 <;> cases k3 <;>
    simp only [keyLeB, keyTag, decide_eq_true_eq] at h1 h2 ⊢ <;>
    try omega
  · exact natListLe_trans _ _ _ h1 h2
  · exact le_trans h1 h2
  · exact le_trans h1 h2

/-- The two files of the C5 counterexample: one stem parses as a timestamp
(key type `datetime`), the other does not and falls back to its stat mtime
(key type `float`). -/
def fileTsKey : FileInfo :=
  ⟨"data/screenshots/page/2024-01-01_00-00-00.png", some 0, 0⟩

/-- See `fileTsKey`. -/
def fileMtimeKey : FileInfo := ⟨"data/screenshots/page/capture.png", some 5, 1⟩

/-- C5 (counterexample).  Sorting by `natural_key` is not total: on a
directory holding `2024-01-01_00-00-00.png` (whose key is a `datetime`) and
`capture.png` (whose key is the float mtime), CPython's `sorted` compares a
`datetime` with a `float` and raises `TypeError` (modelled as `none`),
crashing the run. -/
theorem natural_key_sort_counterexample :
    pySorted [fileTsKey, fileMtimeKey] = none ∧
      keyTag (natural_key fileTsKey) = 0 ∧
      keyTag (natural_key fileMtimeKey) = 1 := by decide

/-- C5 (amended).  `natural_key` itself is total (every file gets a key:
the bare `except` swallows every parse failure), and whenever all selected
files' keys have one Python type, sorting succeeds and the selected pair
satisfies `previous key ≤ current key`. -/
theorem natural_key_sort_amended (l : List FileInfo)
    (hhomog : ∀ a ∈ l, ∀ b ∈ l,
      keyTag (natural_key a) = keyTag (natural_key b)) :
    ∃ s, pySorted l = some s ∧ s.length = l.length ∧
      ∀ pr, selectPair s = some pr →
        keyLeB (natural_key pr.1) (natural_key pr.2) = true := by
  refine ⟨l.insertionSort
    (fun a b => keyLeB (natural_key a) (natural_key b) = true), ?_, ?_, ?_⟩
  · rw [pySorted, if_pos hhomog]
  · exact (List.perm_insertionSort _ l).length_eq
  · intro pr hpr
    haveI : IsTotal FileInfo
        (fun a b => keyLeB (natural_key a) (natural_key b) = true) :=
      ⟨fun a b => keyLeB_total (natural_key a) (natural_key b)⟩
    haveI : IsTrans FileInfo
        (fun a b => keyLeB (natural_key a) (natural_key b) = true) :=
      ⟨fun _ _ _ hab hbc => keyLeB_trans _ _ _ hab hbc⟩
    have hsorted := List.sorted_insertionSort
      (fun a b => keyLeB (natural_key a) (natural_key b) = true) l
    set s := l.insertionSort
      (fun a b => keyLeB (natural_key a) (natural_key b) = true) with hs
    rw [selectPair] at hpr
    split_ifs at hpr with hlen
    have hrel := List.pairwise_iff_get.mp hsorted
      ⟨s.length - 2, by omega⟩ ⟨s.length - 1, by omega⟩
      (by simp [Fin.lt_def]; omega)
    obtain rfl := Option.some.inj hpr
    exact hrel

/-- Two capture files with unparseable stems and therefore homogeneous
(float mtime) keys. -/
def fileW1 : FileInfo := ⟨"shots/b.png", some 2, 3⟩

/-- See `fileW1`. -/
def fileW2 : FileInfo := ⟨"shots/a.png", some 7, 4⟩

/-- Witness for the amended C5 on a two-file homogeneous directory. -/
theorem natural_key_sort_amended_witness :
    (∀ a ∈ [fileW1, fileW2], ∀ b ∈ [fileW1, fileW2],
      keyTag (natural_key a) = keyTag (natural_key b)) ∧
      ∃ s, pySorted [fileW1, fileW2] = some s ∧
        s.length = [fileW1, fileW2].length ∧
        ∀ pr, selectPair s = some pr →
          keyLeB (natural_key pr.1) (natural_key pr.2) = true :=
  ⟨by decide, natural_key_sort_amended [fileW1, fileW2] (by decide)⟩

lemma homog_of_short (l : List FileInfo) (hl : l.length < 2) :
    ∀ a ∈ l, ∀ b ∈ l, keyTag (natural_key a) = keyTag (natural_key b) := by
  cases l with
  | nil => simp
  | cons x xs =>
    cases xs with
    | nil =>
      intro a ha b hb
      rw [List.mem_singleton] at ha hb
      rw [ha, hb]
    | cons y ys =>
      exact absurd hl (by rw [List.length_cons, List.length_cons]; omega)

/-- C8.  A page with fewer than two captures, or whose selected pair
contains a file that fails to decode, produces no row (`Except.ok none`),
and removing such a page from the run leaves every other page's result
unchanged (the run is not aborted by it). -/
theorem skippable_page (ext : ExtEnv) (ssimT : ℚ) (phashT : ℤ) (p : Page)
    (hskip : p.files.length < 2 ∨
      ∃ s a b, pySorted p.files = some s ∧ selectPair s = some (a, b) ∧
        (ext.decode a.content = none ∨ ext.decode b.content = none)) :
    processPage ext ssimT phashT p = .ok none ∧
      ∀ l1 l2, runMain ext ssimT phashT (l1 ++ p :: l2) =
        runMain ext ssimT phashT (l1 ++ l2) := by
  have hmain : processPage ext ssimT phashT p = .ok none := by
    rcases hskip with hlen | ⟨s, a, b, hsort, hsel, hdec⟩
    · have hhomog := homog_of_short p.files hlen
      have hsort : pySorted p.files = some (p.files.insertionSort
          fun f g => keyLeB (natural_key f) (natural_key g) = true) := by
        rw [pySorted, if_pos hhomog]
      have hslen : (p.files.insertionSort
          fun f g => keyLeB (natural_key f) (natural_key g) = true).length =
          p.files.length :=
        (List.perm_insertionSort _ p.files).length_eq
      rw [processPage, hsort]
      simp only [hslen]
      rw [if_pos hlen]
    · have hlen2 : ¬ s.length < 2 := by
        intro hcon
        rw [selectPair, dif_neg (by omega)] at hsel
        cases hsel
      rw [processPage, hsort]
      simp only [if_neg hlen2, hsel]
      rcases hdec with hda | hdb
      · rw [hda]
      · rw [hdb]
        cases ext.decode a.content <;> rfl
  refine ⟨hmain, fun l1 l2 => ?_⟩
  induction l1 with
  | nil => simp [runMain, hmain]
  | cons q l1 ih =>
    simp only [List.cons_append, runMain, List.append_eq]
    rw [ih]

/-- An external environment whose decoder always fails. -/
def extNone : ExtEnv := ⟨fun _ => none, fun _ => [], fun _ => (0, 0, 0)⟩

/-- A page directory with no captures. -/
def pageEmpty : Page := ⟨"empty", []⟩

/-- Witness for C8: an empty page under the default thresholds yields no
row, and dropping it leaves the run result unchanged. -/
theorem skippable_page_witness :
    (pageEmpty.files.length < 2 ∨
      ∃ s a b, pySorted pageEmpty.files = some s ∧
        selectPair s = some (a, b) ∧
        (extNone.decode a.content = none ∨ extNone.decode b.content = none)) ∧
      (processPage extNone (SSIM_THRESHOLD none) (PHASH_THRESHOLD none)
          pageEmpty = .ok none ∧
        runMain extNone (SSIM_THRESHOLD none) (PHASH_THRESHOLD none)
            ([] ++ pageEmpty :: []) =
          runMain extNone (SSIM_THRESHOLD none) (PHASH_THRESHOLD none)
            ([] ++ [])) :=
  ⟨Or.inl (by decide),
    (skippable_page extNone (SSIM_THRESHOLD none) (PHASH_THRESHOLD none)
      pageEmpty (Or.inl (by decide))).1,
    (skippable_page extNone (SSIM_THRESHOLD none) (PHASH_THRESHOLD none)
      pageEmpty (Or.inl (by decide))).2 [] []⟩
